import Mathlib

/-!
Verification of the motion utilities module (`motion_utils.py`) of the
spikeinterface sorting-components package.

The module is embedded shallowly:
* numpy float arrays become `List ℚ` (1-D), `List (List ℚ)` (2-D), and
  `List (List (List ℚ))` (3-D); where the code relies on `numpy.exp`
  (gaussian windows) the carrier is `ℝ`.
* fallible code (Python `raise`, `assert`, out-of-range indexing) returns
  `Except String _` or `Option _`.
* `scipy.interpolate.RegularGridInterpolator` with `method="linear"` on
  in-bounds points is modelled by bilinear interpolation over the two
  sorted axes; `scipy.signal.correlate` is modelled from its documented
  "full"/"valid"/"same" semantics.
-/

set_option autoImplicit false

namespace SpikeMotion

/-- `np.clip(x, lo, hi)`: equivalent to `min(max(x, lo), hi)` (so for
`lo > hi` every value maps to `hi`). -/
def clip (x lo hi : ℚ) : ℚ := min (max x lo) hi

/-- `np.min` over the entries of a 1-D array (0 on the empty list, where
numpy would raise). -/
def npMin (xs : List ℚ) : ℚ :=
  match xs with
  | [] => 0
  | x :: rest => rest.foldl min x

/-- `np.max` over the entries of a 1-D array (0 on the empty list, where
numpy would raise). -/
def npMax (xs : List ℚ) : ℚ :=
  match xs with
  | [] => 0
  | x :: rest => rest.foldl max x

/-- Cell index used by linear interpolation along one sorted 1-D axis:
the largest `i` with `xs[i] ≤ x`, capped at `xs.length - 2` so the cell
has a right endpoint (this is the in-bounds cell search of
`RegularGridInterpolator`). -/
def cellIndex (xs : List ℚ) (x : ℚ) : ℕ :=
  min (xs.length - 2) ((xs.drop 1).takeWhile (fun v => decide (v ≤ x))).length

/-- Cell index and barycentric coordinate of `x` along the sorted axis
`xs`: the value at `x` is `(1-θ)·f[i] + θ·f[i+1]`.  A degenerate cell
(single-point axis) yields `θ = 0`. -/
def interpCoord (xs : List ℚ) (x : ℚ) : ℕ × ℚ :=
  let i := cellIndex xs x
  let x0 := xs.getD i 0
  let x1 := xs.getD (i + 1) x0
  (i, if x1 = x0 then 0 else (x - x0) / (x1 - x0))

/-- `RegularGridInterpolator((tbins, sbins), values, method="linear")`
evaluated at an in-bounds point `(t, s)`: bilinear interpolation on the
grid cell containing the point. -/
def regularGridInterp (tbins sbins : List ℚ) (values : List (List ℚ)) (t s : ℚ) : ℚ :=
  let it := interpCoord tbins t
  let js := interpCoord sbins s
  let g : ℕ → ℕ → ℚ := fun r c => (values.getD r []).getD c 0
  (1 - it.2) * ((1 - js.2) * g it.1 js.1 + js.2 * g it.1 (js.1 + 1)) +
    it.2 * ((1 - js.2) * g (it.1 + 1) js.1 + js.2 * g (it.1 + 1) (js.1 + 1))

/-- The default of the constructor's `direction` parameter. -/
def default_direction : String := "y"

/-- The `Motion` entity: per-segment displacement grids
(`displacement[seg][t][s]`), per-segment temporal bin centers, one shared
list of spatial bin centers, a direction and an interpolation method. -/
structure Motion where
  displacement : List (List (List ℚ))
  temporal_bins_s : List (List ℚ)
  spatial_bins_um : List ℚ
  direction : String
  interpolation_method : String
deriving DecidableEq

/-- `self.num_segments = len(self.displacement)`. -/
def Motion.num_segments (m : Motion) : ℕ := m.displacement.length

/-- `Motion.check_properties`: every displacement grid is a rectangular
2-D array whose second dimension matches `spatial_bins_um` (the
`d.ndim == 2`, `t.ndim == 1` and `spatial_bins_um.shape == (d.shape[1],)`
assertions; the list embedding makes the `ndim` checks rectangularity). -/
def Motion.check_properties (m : Motion) : Bool :=
  m.displacement.all fun d =>
    d.all fun row => row.length = m.spatial_bins_um.length

/-- The `Motion.__init__` constructor called with per-segment lists: it
computes `self.dim` via `["x", "y", "z"].index(direction)` (raising on an
unknown direction) and runs `check_properties`. -/
def makeMotion (displacement : List (List (List ℚ))) (temporal_bins_s : List (List ℚ))
    (spatial_bins_um : List ℚ) (direction : String) (interpolation_method : String) :
    Except String Motion :=
  if ["x", "y", "z"].contains direction then
    if (Motion.mk displacement temporal_bins_s spatial_bins_um direction
        interpolation_method).check_properties then
      .ok ⟨displacement, temporal_bins_s, spatial_bins_um, direction,
        interpolation_method⟩
    else .error "check_properties failed"
  else .error "direction is not in list"

/-- `self.temporal_bounds[seg] = (t[0], t[-1])` for the segment's temporal
bins, set up by `make_interpolators`. -/
def Motion.temporal_bounds (m : Motion) (seg : ℕ) : ℚ × ℚ :=
  let t := m.temporal_bins_s.getD seg []
  (t.headD 0, t.getLastD 0)

/-- `self.spatial_bounds = (spatial_bins_um.min(), spatial_bins_um.max())`,
set up by `make_interpolators`. -/
def Motion.spatial_bounds (m : Motion) : ℚ × ℚ :=
  (npMin m.spatial_bins_um, npMax m.spatial_bins_um)

/-- The two result shapes of `get_displacement_at_time_and_depth`:
a 1-D array for point-cloud queries, a 2-D `(L, T)` array for grid
queries. -/
inductive DispResult where
  | points (values : List ℚ)
  | grid (values : List (List ℚ))
deriving DecidableEq

/-- `displacement.reshape(out_shape)` for `out_shape = (r, c)`: split a
raveled list into `r` consecutive rows of `c` entries. -/
def reshapeRows : ℕ → ℕ → List ℚ → List (List ℚ)
  | 0, _, _ => []
  | r + 1, c, xs => xs.take c :: reshapeRows r c (xs.drop c)

/-- `Motion.get_displacement_at_time_and_depth(times_s, locations_um,
segment_index, grid)` for 1-D `locations_um`.  Mirrors the source:
resolve the segment index (raising when several segments exist and none
is given), clamp times into the segment's temporal bounds and locations
into the global spatial bounds, then either evaluate the meshgrid
cartesian product (`grid=True`, reshaped to shape `(L, T)`) or the
point cloud (`grid=False`, asserting equal shapes). -/
def Motion.get_displacement_at_time_and_depth (m : Motion)
    (times_s locations_um : List ℚ) (segment_index : Option ℕ) (grid : Bool) :
    Except String DispResult :=
  let seg? : Except String ℕ :=
    match segment_index with
    | some i => .ok i
    | none =>
      if m.num_segments = 1 then .ok 0
      else .error "Several segment need segment_index="
  match seg? with
  | .error e => .error e
  | .ok seg =>
    let tb := m.temporal_bounds seg
    let sb := m.spatial_bounds
    let times := times_s.map fun t => clip t tb.1 tb.2
    let locs := locations_um.map fun l => clip l sb.1 sb.2
    let tbins := m.temporal_bins_s.getD seg []
    let values := m.displacement.getD seg []
    if grid then
      let points := locs.flatMap fun l => times.map fun t => (t, l)
      let disp := points.map fun p => regularGridInterp tbins m.spatial_bins_um values p.1 p.2
      .ok (.grid (reshapeRows locs.length times.length disp))
    else
      if times.length = locs.length then
        .ok (.points ((times.zip locs).map fun p =>
          regularGridInterp tbins m.spatial_bins_um values p.1 p.2))
      else .error "locations_um.shape == times_s.shape failed"

theorem reshapeRows_length (r c : ℕ) (xs : List ℚ) : (reshapeRows r c xs).length = r := by
  induction r generalizing xs with
  | zero => rfl
  | succ n ih => simp [reshapeRows, ih]

theorem reshapeRows_row_length (r c : ℕ) (xs : List ℚ) (h : xs.length = r * c) :
    ∀ row ∈ reshapeRows r c xs, row.length = c := by
  induction r generalizing xs with
  | zero => intro row hrow; simp [reshapeRows] at hrow
  | succ n ih =>
    intro row hrow
    simp only [reshapeRows, List.mem_cons] at hrow
    rcases hrow with h1 | h2
    · subst h1
      rw [List.length_take, h]
      have : c ≤ (n + 1) * c := by nlinarith
      omega
    · exact ih (xs.drop c) (by simp [h]; ring_nf; omega) row h2

theorem reshapeRows_getD (r c i : ℕ) (xs : List ℚ) (h : i < r) :
    (reshapeRows r c xs).getD i [] = (xs.drop (i * c)).take c := by
  induction r generalizing xs i with
  | zero => omega
  | succ n ih =>
    cases i with
    | zero => simp [reshapeRows]
    | succ k =>
      have hk : k < n := by omega
      simp only [reshapeRows, List.getD_cons_succ]
      rw [ih k (xs.drop c) hk, List.drop_drop]
      congr 2
      ring

theorem flatMapGrid_length {α β γ : Type} (ls : List α) (ts : List β) (f : α → β → γ) :
    (ls.flatMap fun l => ts.map fun t => f l t).length = ls.length * ts.length := by
  induction ls with
  | nil => simp
  | cons l rest ih => simp [ih]; ring

theorem flatMapGrid_get? {α β γ : Type} (ls : List α) (ts : List β) (f : α → β → γ)
    (i j : ℕ) (hi : i < ls.length) (hj : j < ts.length) :
    (ls.flatMap fun l => ts.map fun t => f l t).get? (i * ts.length + j)
      = some (f (ls.get ⟨i, hi⟩) (ts.get ⟨j, hj⟩)) := by
  induction ls generalizing i with
  | nil => simp at hi
  | cons l rest ih =>
    cases i with
    | zero =>
      simp only [List.flatMap_cons, Nat.zero_mul, Nat.zero_add]
      rw [List.get?_append (by simpa using hj), List.get?_map,
        List.get?_eq_get hj]
      rfl
    | succ k =>
      have hk : k < rest.length := by simpa using hi
      simp only [List.flatMap_cons]
      rw [List.get?_append_right (by simp; nlinarith)]
      have harith : (k + 1) * ts.length + j - (ts.map fun t => f l t).length
          = k * ts.length + j := by
        simp only [List.length_map]; ring_nf; omega
      rw [harith, ih k hk]
      rfl

/-- C1.  Grid mode is a cartesian-product evaluation: for a query with
`segment_index = some seg` and `grid = True` on a 1-D times array of size
T and a 1-D locations array of size L, the result is a grid of shape
(L, T) whose entry `[i, j]` is exactly the displacement the point query
(`grid = False`) returns for the single pair
`(times[j], locations[i])`. -/
theorem grid_query_is_cartesian (m : Motion) (times locs : List ℚ) (seg i j : ℕ)
    (hi : i < locs.length) (hj : j < times.length) :
    ∃ G : List (List ℚ),
      m.get_displacement_at_time_and_depth times locs (some seg) true
        = .ok (.grid G) ∧
      G.length = locs.length ∧
      (∀ row ∈ G, row.length = times.length) ∧
      m.get_displacement_at_time_and_depth
          [times.get ⟨j, hj⟩] [locs.get ⟨i, hi⟩] (some seg) false
        = .ok (.points [(G.getD i []).getD j 0]) := by
  simp only [Motion.get_displacement_at_time_and_depth, if_true]
  set tb := m.temporal_bounds seg with htb
  set sb := m.spatial_bounds with hsb
  set tbins := m.temporal_bins_s.getD seg [] with htbins
  set ev : ℚ → ℚ → ℚ := fun t l =>
    regularGridInterp tbins m.spatial_bins_um (m.displacement.getD seg []) t l with hev
  set tc : ℚ → ℚ := fun t => clip t tb.1 tb.2 with htc
  set lc : ℚ → ℚ := fun l => clip l sb.1 sb.2 with hlc
  refine ⟨reshapeRows (locs.map lc).length (times.map tc).length
      (((locs.map lc).flatMap fun l => (times.map tc).map fun t => (t, l)).map
        fun p => ev p.1 p.2), ?_, ?_, ?_, ?_⟩
  · rfl
  · rw [reshapeRows_length]; simp
  · intro row hrow
    have hlen : (((locs.map lc).flatMap fun l =>
        (times.map tc).map fun t => (t, l)).map fun p => ev p.1 p.2).length
        = (locs.map lc).length * (times.map tc).length := by
      rw [List.length_map]
      have := flatMapGrid_length (locs.map lc) (times.map tc)
        (fun l t => ((t, l) : ℚ × ℚ))
      simpa using this
    have := reshapeRows_row_length _ _ _ hlen row hrow
    simpa using this
  · have hi' : i < (locs.map lc).length := by simpa using hi
    have hj' : j < (times.map tc).length := by simpa using hj
    have hgetD : (((((locs.map lc).flatMap fun l =>
          (times.map tc).map fun t => (t, l)).map fun p => ev p.1 p.2).drop
          (i * (times.map tc).length)).take (times.map tc).length).getD j 0
        = ev (tc (times.get ⟨j, hj⟩)) (lc (locs.get ⟨i, hi⟩)) := by
      rw [List.getD_eq_getD_get?, List.get?_take hj', List.get?_drop, List.get?_map,
        flatMapGrid_get? (locs.map lc) (times.map tc)
          (fun l t => ((t, l) : ℚ × ℚ)) i j hi' hj']
      simp
    rw [reshapeRows_getD _ _ _ _ hi', hgetD]
    simp
    rw [hev]
    simp [List.getD_eq_getD_get?]

/-- Witness for C1: the concrete motion of the spec's worked example,
grid query over times `[0,1,2]` and locations `[0,10]`, entry `[1,2]`. -/
theorem grid_query_is_cartesian_witness :
    ∃ G : List (List ℚ),
      Motion.get_displacement_at_time_and_depth
          ⟨[[[0, 0], [1, 2], [2, 4]]], [[0, 1, 2]], [0, 10], "y", "linear"⟩
          [0, 1, 2] [0, 10] (some 0) true = .ok (.grid G) ∧
      G.length = 2 ∧
      (∀ row ∈ G, row.length = 3) ∧
      Motion.get_displacement_at_time_and_depth
          ⟨[[[0, 0], [1, 2], [2, 4]]], [[0, 1, 2]], [0, 10], "y", "linear"⟩
          [2] [10] (some 0) false = .ok (.points [(G.getD 1 []).getD 2 0]) :=
  grid_query_is_cartesian
    ⟨[[[0, 0], [1, 2], [2, 4]]], [[0, 1, 2]], [0, 10], "y", "linear"⟩
    [0, 1, 2] [0, 10] 0 1 2 (by decide) (by decide)

theorem clip_idem (x lo hi : ℚ) : clip (clip x lo hi) lo hi = clip x lo hi := by
  simp only [clip, min_def, max_def]
  split_ifs <;> linarith

theorem clip_of_le_lo {t lo : ℚ} (hi : ℚ) (h : t ≤ lo) : clip t lo hi = clip lo lo hi := by
  simp only [clip, min_def, max_def]
  split_ifs <;> linarith

theorem clip_of_hi_le {t hi : ℚ} (lo : ℚ) (h : hi ≤ t) : clip t lo hi = clip hi lo hi := by
  simp only [clip, min_def, max_def]
  split_ifs <;> linarith

/-- C2.  Every query clamps componentwise: evaluating at clamped times and
clamped locations gives the same answer as the raw query (first conjunct:
clamping is built into the evaluation, no extrapolation), and in
particular a query at a time at or before the first temporal bin, or at
or after the last, equals the query exactly at that boundary bin. -/
theorem query_clamps_into_bounds (m : Motion) (seg : ℕ) (t l : ℚ)
    (times locs : List ℚ) (grid : Bool) :
    (m.get_displacement_at_time_and_depth times locs (some seg) grid
      = m.get_displacement_at_time_and_depth
          (times.map fun x => clip x (m.temporal_bounds seg).1 (m.temporal_bounds seg).2)
          (locs.map fun x => clip x (m.spatial_bounds).1 (m.spatial_bounds).2)
          (some seg) grid) ∧
    (t ≤ (m.temporal_bounds seg).1 →
      m.get_displacement_at_time_and_depth [t] [l] (some seg) grid
        = m.get_displacement_at_time_and_depth
            [(m.temporal_bounds seg).1] [l] (some seg) grid) ∧
    ((m.temporal_bounds seg).2 ≤ t →
      m.get_displacement_at_time_and_depth [t] [l] (some seg) grid
        = m.get_displacement_at_time_and_depth
            [(m.temporal_bounds seg).2] [l] (some seg) grid) := by
  have hmap : ∀ (xs : List ℚ) (a b : ℚ),
      (xs.map fun x => clip x a b).map (fun x => clip x a b)
        = xs.map fun x => clip x a b := by
    intro xs a b
    rw [List.map_map]
    exact List.map_congr_left fun x _ => clip_idem x a b
  refine ⟨?_, ?_, ?_⟩
  · simp only [Motion.get_displacement_at_time_and_depth]
    rw [hmap, hmap]
  · intro h
    simp only [Motion.get_displacement_at_time_and_depth, List.map_cons, List.map_nil]
    rw [clip_of_le_lo _ h]
  · intro h
    simp only [Motion.get_displacement_at_time_and_depth, List.map_cons, List.map_nil]
    rw [clip_of_hi_le _ h]

/-- Witness for C2: on the spec's worked example, querying at time `-5`
(before the first bin, whose center is `0`) equals querying at time `0`. -/
theorem query_clamps_into_bounds_witness :
    Motion.get_displacement_at_time_and_depth
        ⟨[[[0, 0], [1, 2], [2, 4]]], [[0, 1, 2]], [0, 10], "y", "linear"⟩
        [-5] [0] (some 0) false
      = Motion.get_displacement_at_time_and_depth
          ⟨[[[0, 0], [1, 2], [2, 4]]], [[0, 1, 2]], [0, 10], "y", "linear"⟩
          [0] [0] (some 0) false :=
  (query_clamps_into_bounds
    ⟨[[[0, 0], [1, 2], [2, 4]]], [[0, 1, 2]], [0, 10], "y", "linear"⟩
    0 (-5) 0 [] [] false).2.1 (by decide)

/-- C6.  With several segments, omitting `segment_index` raises the
explicit `ValueError`; with exactly one segment it defaults to segment 0
and (for equally sized point-cloud inputs) the call succeeds. -/
theorem segment_index_usage (m : Motion) (times locs : List ℚ) (grid : Bool)
    (hlen : times.length = locs.length) :
    (1 < m.num_segments →
      m.get_displacement_at_time_and_depth times locs none grid
        = .error "Several segment need segment_index=") ∧
    (m.num_segments = 1 →
      m.get_displacement_at_time_and_depth times locs none grid
        = m.get_displacement_at_time_and_depth times locs (some 0) grid ∧
      ∃ r, m.get_displacement_at_time_and_depth times locs none grid = .ok r) := by
  constructor
  · intro h
    simp only [Motion.get_displacement_at_time_and_depth]
    rw [if_neg (by omega)]
  · intro h
    constructor
    · simp only [Motion.get_displacement_at_time_and_depth, if_pos h]
    · simp only [Motion.get_displacement_at_time_and_depth, if_pos h]
      cases grid with
      | true => exact ⟨_, rfl⟩
      | false =>
        rw [if_neg (show ¬(false = true) by simp), if_pos (by simp [hlen])]
        exact ⟨_, rfl⟩

/-- Witness for C6: a two-segment motion raises without `segment_index`;
a one-segment motion answers as segment 0. -/
theorem segment_index_usage_witness :
    (Motion.get_displacement_at_time_and_depth
        ⟨[[[1]], [[2]]], [[0], [0]], [0], "y", "linear"⟩ [1] [1] none false
      = .error "Several segment need segment_index=") ∧
    (Motion.get_displacement_at_time_and_depth
        ⟨[[[1]]], [[0]], [0], "y", "linear"⟩ [1] [1] none false
      = Motion.get_displacement_at_time_and_depth
          ⟨[[[1]]], [[0]], [0], "y", "linear"⟩ [1] [1] (some 0) false) :=
  ⟨(segment_index_usage ⟨[[[1]], [[2]]], [[0], [0]], [0], "y", "linear"⟩
      [1] [1] false rfl).1 (by decide),
   ((segment_index_usage ⟨[[[1]]], [[0]], [0], "y", "linear"⟩
      [1] [1] false rfl).2 (by decide)).1⟩

/-- Default relative tolerance of `np.allclose`. -/
def np_rtol : ℚ := 1 / 100000

/-- Default absolute tolerance of `np.allclose`. -/
def np_atol : ℚ := 1 / 100000000

/-- Elementwise criterion of `np.allclose`: |a - b| ≤ atol + rtol·|b|. -/
def isclose (a b : ℚ) : Bool := decide (|a - b| ≤ np_atol + np_rtol * |b|)

/-- `np.allclose` on 1-D arrays of equal shape; `none` models the raise
on incompatible shapes (the arrays compared by `Motion.__eq__` have
matching shapes whenever the claims apply, so general broadcasting is
not modelled). -/
def allclose1 (a b : List ℚ) : Option Bool :=
  if a.length = b.length then some ((a.zip b).all fun p => isclose p.1 p.2)
  else none

/-- `np.allclose` on 2-D arrays of equal shape. -/
def allclose2 (a b : List (List ℚ)) : Option Bool :=
  if a.length = b.length ∧ ∀ p ∈ a.zip b, p.1.length = p.2.length then
    some ((a.zip b).all fun p => (p.1.zip p.2).all fun q => isclose q.1 q.2)
  else none

/-- The loop of `Motion.__eq__` over `range(self.num_segments)`: read
`other.displacement[i]` and `other.temporal_bins_s[i]` (an out-of-range
read is an `IndexError`, modelled `none`; `self`'s own reads are always
in range since the loop runs over `len(self.displacement)`), and return
`False` early at the first mismatch. -/
def eqLoop (ad bd : List (List (List ℚ))) (atb btb : List (List ℚ)) :
    List ℕ → Option Bool
  | [] => some true
  | i :: rest =>
    match bd.get? i with
    | none => none
    | some di =>
      match allclose2 (ad.getD i []) di with
      | none => none
      | some false => some false
      | some true =>
        match btb.get? i with
        | none => none
        | some ti =>
          match allclose1 (atb.getD i []) ti with
          | none => none
          | some false => some false
          | some true => eqLoop ad bd atb btb rest

/-- `Motion.__eq__`: per-segment comparison over `self`'s segments, then
the spatial bins; `none` models a raised exception. -/
def Motion.eqPy (a b : Motion) : Option Bool :=
  match eqLoop a.displacement b.displacement a.temporal_bins_s b.temporal_bins_s
      (List.range a.num_segments) with
  | none => none
  | some false => some false
  | some true => allclose1 a.spatial_bins_um b.spatial_bins_um

/-- The spec's reading of Motion equality, modelled from its words: the
motions agree on the number of segments and, for every segment, the
displacement grids and temporal bins are numerically close, and the
spatial bins are numerically close. -/
def motionCloseSpec (a b : Motion) : Bool :=
  decide (a.num_segments = b.num_segments) &&
  ((List.range a.num_segments).all fun i =>
    decide (allclose2 (a.displacement.getD i []) (b.displacement.getD i [])
      = some true) &&
    decide (allclose1 (a.temporal_bins_s.getD i []) (b.temporal_bins_s.getD i [])
      = some true)) &&
  decide (allclose1 a.spatial_bins_um b.spatial_bins_um = some true)

/-- Counterexample to C5 as stated: `a` has one segment, `b` has two; the
first segments match, so `a == b` returns `True` although the motions are
not componentwise close for every segment (`b` has an extra, different
segment).  Swapping the arguments even raises (`IndexError`), so `==` is
not the claimed symmetric closeness test. -/
theorem eqPy_extra_segment_counterexample :
    Motion.eqPy ⟨[[[1]]], [[0]], [0], "y", "linear"⟩
        ⟨[[[1]], [[5]]], [[0], [9]], [0], "y", "linear"⟩ = some true ∧
    motionCloseSpec ⟨[[[1]]], [[0]], [0], "y", "linear"⟩
        ⟨[[[1]], [[5]]], [[0], [9]], [0], "y", "linear"⟩ = false ∧
    Motion.eqPy ⟨[[[1]], [[5]]], [[0], [9]], [0], "y", "linear"⟩
        ⟨[[[1]]], [[0]], [0], "y", "linear"⟩ = none := by
  refine ⟨?_, ?_, ?_⟩ <;>
    norm_num [Motion.eqPy, eqLoop, allclose1, allclose2, isclose, motionCloseSpec,
      Motion.num_segments, np_atol, np_rtol, List.range_succ, abs]

theorem eqLoop_eq_some_true_iff (ad bd : List (List (List ℚ)))
    (atb btb : List (List ℚ)) (idxs : List ℕ)
    (h : ∀ i ∈ idxs, i < bd.length ∧ i < btb.length ∧
      (allclose2 (ad.getD i []) (bd.getD i [])).isSome ∧
      (allclose1 (atb.getD i []) (btb.getD i [])).isSome) :
    (eqLoop ad bd atb btb idxs = some true ↔
      ∀ i ∈ idxs,
        allclose2 (ad.getD i []) (bd.getD i []) = some true ∧
        allclose1 (atb.getD i []) (btb.getD i []) = some true) := by
  induction idxs with
  | nil => simp [eqLoop]
  | cons i rest ih =>
    obtain ⟨hbd, hbt, hc2, hc1⟩ := h i (by simp)
    have hgetd : bd.get? i = some (bd.getD i []) := by
      rw [List.get?_eq_get hbd, List.getD_eq_get _ _ hbd]
    have hgett : btb.get? i = some (btb.getD i []) := by
      rw [List.get?_eq_get hbt, List.getD_eq_get _ _ hbt]
    rcases h2 : allclose2 (ad.getD i []) (bd.getD i []) with _ | b2
    · rw [h2] at hc2; simp at hc2
    rcases h1 : allclose1 (atb.getD i []) (btb.getD i []) with _ | b1
    · rw [h1] at hc1; simp at hc1
    have ih' := ih fun k hk => h k (by simp [hk])
    cases b2 with
    | false =>
      simp only [eqLoop, hgetd, h2]
      constructor
      · intro hcontra; cases hcontra
      · intro hall
        have := (hall i (by simp)).1
        rw [h2] at this; cases this
    | true =>
      cases b1 with
      | false =>
        simp only [eqLoop, hgetd, h2, hgett, h1]
        constructor
        · intro hcontra; cases hcontra
        · intro hall
          have := (hall i (by simp)).2
          rw [h1] at this; cases this
      | true =>
        simp only [eqLoop, hgetd, h2, hgett, h1]
        rw [ih']
        constructor
        · intro hall k hk
          rcases List.mem_cons.mp hk with hk | hk
          · subst hk; exact ⟨h2, h1⟩
          · exact hall k hk
        · intro hall k hk
          exact hall k (by simp [hk])

theorem allclose1_isSome {a b : List ℚ} (h : a.length = b.length) :
    (allclose1 a b).isSome := by
  simp [allclose1, h]

theorem allclose2_isSome {a b : List (List ℚ)} (h : a.length = b.length)
    (hrow : ∀ j, (a.getD j []).length = (b.getD j []).length) :
    (allclose2 a b).isSome := by
  have hcond : ∀ p ∈ a.zip b, p.1.length = p.2.length := by
    intro p hp
    obtain ⟨k, hk, hpk⟩ := List.mem_iff_getElem.mp hp
    have hka : k < a.length := by
      rw [List.length_zip] at hk; omega
    have hkb : k < b.length := by
      rw [List.length_zip] at hk; omega
    rw [← hpk, List.getElem_zip]
    have := hrow k
    rwa [List.getD_eq_getElem _ _ hka, List.getD_eq_getElem _ _ hkb] at this
  rw [allclose2, if_pos ⟨h, hcond⟩]
  rfl

/-- C5 amended.  For motions with the same number of segments, matching
per-segment array shapes and matching spatial-bin shapes, `a == b`
returns `True` iff every segment's displacement grid and temporal bins
are numerically close and the spatial bins are numerically close; the
`direction` and `interpolation_method` fields play no role. -/
theorem eqPy_iff_componentwise_allclose (a b : Motion)
    (hn : a.num_segments = b.num_segments)
    (hbt : a.num_segments ≤ b.temporal_bins_s.length)
    (hshape : ∀ i < a.num_segments,
      (a.displacement.getD i []).length = (b.displacement.getD i []).length ∧
      (∀ j, ((a.displacement.getD i []).getD j []).length
        = ((b.displacement.getD i []).getD j []).length) ∧
      (a.temporal_bins_s.getD i []).length = (b.temporal_bins_s.getD i []).length)
    (hsp : a.spatial_bins_um.length = b.spatial_bins_um.length) :
    (a.eqPy b = some true ↔
      (∀ i < a.num_segments,
        allclose2 (a.displacement.getD i []) (b.displacement.getD i []) = some true ∧
        allclose1 (a.temporal_bins_s.getD i []) (b.temporal_bins_s.getD i [])
          = some true) ∧
      allclose1 a.spatial_bins_um b.spatial_bins_um = some true) ∧
    (∀ d₁ im₁ d₂ im₂,
      Motion.eqPy ⟨a.displacement, a.temporal_bins_s, a.spatial_bins_um, d₁, im₁⟩
          ⟨b.displacement, b.temporal_bins_s, b.spatial_bins_um, d₂, im₂⟩
        = a.eqPy b) := by
  constructor
  · have hside : ∀ i ∈ List.range a.num_segments,
        i < b.displacement.length ∧ i < b.temporal_bins_s.length ∧
        (allclose2 (a.displacement.getD i []) (b.displacement.getD i [])).isSome ∧
        (allclose1 (a.temporal_bins_s.getD i [])
          (b.temporal_bins_s.getD i [])).isSome := by
      intro i hi
      rw [List.mem_range] at hi
      obtain ⟨h1, h2, h3⟩ := hshape i hi
      have hbd : b.num_segments = b.displacement.length := rfl
      exact ⟨by omega, by omega, allclose2_isSome h1 h2, allclose1_isSome h3⟩
    have hloop := eqLoop_eq_some_true_iff a.displacement b.displacement
      a.temporal_bins_s b.temporal_bins_s (List.range a.num_segments) hside
    rcases hsome : allclose1 a.spatial_bins_um b.spatial_bins_um with _ | v
    · have := allclose1_isSome hsp
      rw [hsome] at this; simp at this
    rcases hl : eqLoop a.displacement b.displacement a.temporal_bins_s
        b.temporal_bins_s (List.range a.num_segments) with _ | lb
    · rw [hl] at hloop
      simp only [Motion.eqPy, hl]
      constructor
      · intro hcontra; cases hcontra
      · intro hall
        have hiff := hloop.mpr fun i hi => hall.1 i (List.mem_range.mp hi)
        cases hiff
    · rw [hl] at hloop
      cases lb with
      | false =>
        simp only [Motion.eqPy, hl]
        constructor
        · intro hcontra; cases hcontra
        · intro hall
          have hiff := hloop.mpr fun i hi => hall.1 i (List.mem_range.mp hi)
          cases hiff
      | true =>
        simp only [Motion.eqPy, hl, hsome]
        constructor
        · intro hv
          exact ⟨fun i hi => hloop.mp rfl i (List.mem_range.mpr hi), hv⟩
        · intro hall
          exact hall.2
  · intro d₁ im₁ d₂ im₂
    rfl

/-- Witness for the amended C5 at two concrete equal-shape motions that
differ in values, direction and interpolation method. -/
theorem eqPy_iff_componentwise_allclose_witness :
    ((Motion.eqPy ⟨[[[1]]], [[0]], [0], "y", "linear"⟩
        ⟨[[[3]]], [[0]], [0], "x", "cubic"⟩ = some true ↔
      (∀ i < 1,
        allclose2 (([[[1]]] : List (List (List ℚ))).getD i [])
          (([[[3]]] : List (List (List ℚ))).getD i []) = some true ∧
        allclose1 (([[0]] : List (List ℚ)).getD i [])
          (([[0]] : List (List ℚ)).getD i []) = some true) ∧
      allclose1 [0] [0] = some true) ∧
    (∀ d₁ im₁ d₂ im₂,
      Motion.eqPy ⟨[[[1]]], [[0]], [0], d₁, im₁⟩ ⟨[[[3]]], [[0]], [0], d₂, im₂⟩
        = Motion.eqPy ⟨[[[1]]], [[0]], [0], "y", "linear"⟩
            ⟨[[[3]]], [[0]], [0], "x", "cubic"⟩)) :=
  eqPy_iff_componentwise_allclose
    ⟨[[[1]]], [[0]], [0], "y", "linear"⟩ ⟨[[[3]]], [[0]], [0], "x", "cubic"⟩
    rfl (by decide)
    (by
      intro i hi
      have h1 : i < 1 := by simpa [Motion.num_segments] using hi
      have h0 : i = 0 := by omega
      subst h0
      exact ⟨rfl, fun j => by cases j <;> rfl, rfl⟩)
    rfl

/-- The on-disk layout `Motion.save` writes into a fresh (non-existing)
folder and `Motion.load` reads back: the `spikeinterface_info.json`
metadata fields that `load` consumes, the shared spatial-bins file, and
one displacement file and one temporal-bins file per segment index
(`none` models an absent file). -/
structure MotionFolder where
  info_object : String
  info_num_segments : ℕ
  info_direction : String
  info_interpolation_method : String
  spatial_bins_um : List ℚ
  displacement_seg : ℕ → Option (List (List ℚ))
  temporal_bins_s_seg : ℕ → Option (List ℚ)

/-- `Motion.save(folder)`: writes the metadata (with `object = "Motion"`)
and exactly the array files for segments `0 ≤ i < num_segments`. -/
def Motion.save (m : Motion) : MotionFolder :=
  { info_object := "Motion"
    info_num_segments := m.num_segments
    info_direction := m.direction
    info_interpolation_method := m.interpolation_method
    spatial_bins_um := m.spatial_bins_um
    displacement_seg := fun i =>
      if i < m.num_segments then m.displacement.get? i else none
    temporal_bins_s_seg := fun i =>
      if i < m.num_segments then m.temporal_bins_s.get? i else none }

/-- Read the per-segment files `f start, f (start+1), …` (`count` many);
a missing file is a load error (`np.load` on a missing path raises). -/
def readFiles {α : Type} (f : ℕ → Option α) : ℕ → ℕ → Except String (List α)
  | _, 0 => .ok []
  | start, k + 1 =>
    match f start with
    | none => .error "missing file"
    | some x =>
      match readFiles f (start + 1) k with
      | .error e => .error e
      | .ok rest => .ok (x :: rest)

/-- `Motion.load(folder)`: check the `object == "Motion"` marker, read
the spatial bins and the per-segment arrays for `range(num_segments)`,
and call the constructor. -/
def Motion.load (f : MotionFolder) : Except String Motion :=
  if f.info_object ≠ "Motion" then
    .error "the folder does not contain a Motion object"
  else
    match readFiles f.displacement_seg 0 f.info_num_segments with
    | .error e => .error e
    | .ok displacement =>
      match readFiles f.temporal_bins_s_seg 0 f.info_num_segments with
      | .error e => .error e
      | .ok temporal =>
        makeMotion displacement temporal f.spatial_bins_um
          f.info_direction f.info_interpolation_method

theorem readFiles_spec {α : Type} (g : ℕ → Option α) :
    ∀ (count start : ℕ) (l : List α), l.length = count →
    (∀ j, (h : j < count) → g (start + j) = l.get? j) →
    readFiles g start count = .ok l := by
  intro count
  induction count with
  | zero =>
    intro start l hl _
    rw [List.length_eq_zero] at hl
    subst hl
    rfl
  | succ k ih =>
    intro start l hl hg
    cases l with
    | nil => simp at hl
    | cons x rest =>
      have h0 : g start = some x := by
        have := hg 0 (by omega)
        simpa using this
      have hrec : readFiles g (start + 1) k = .ok rest := by
        apply ih (start + 1) rest (by simpa using hl)
        intro j hj
        have := hg (j + 1) (by omega)
        rw [show start + 1 + j = start + (j + 1) by omega]
        simpa using this
      simp only [readFiles, h0, hrec]

theorem isclose_refl (x : ℚ) : isclose x x = true := by
  simp only [isclose, sub_self, abs_zero, decide_eq_true_eq]
  have h1 : (0 : ℚ) < np_atol := by norm_num [np_atol]
  have h2 : (0 : ℚ) ≤ np_rtol * |x| := by
    apply mul_nonneg (by norm_num [np_rtol]) (abs_nonneg x)
  linarith

theorem mem_zip_same {α : Type} (a : List α) : ∀ p ∈ a.zip a, p.1 = p.2 := by
  induction a with
  | nil => simp
  | cons x xs ih =>
    intro p hp
    rw [List.zip_cons_cons] at hp
    rcases List.mem_cons.mp hp with h | h
    · subst h; rfl
    · exact ih p h

theorem zip_same_all {α : Type} (f : α × α → Bool) (h : ∀ x, f (x, x) = true)
    (a : List α) : (a.zip a).all f = true := by
  rw [List.all_eq_true]
  intro p hp
  have := mem_zip_same a p hp
  obtain ⟨u, v⟩ := p
  simp only at this
  subst this
  exact h u

theorem allclose1_refl (a : List ℚ) : allclose1 a a = some true := by
  rw [allclose1, if_pos rfl, zip_same_all _ (fun x => isclose_refl x)]

theorem allclose2_refl (a : List (List ℚ)) : allclose2 a a = some true := by
  rw [allclose2, if_pos ⟨rfl, fun p hp => mem_zip_same a p hp ▸ rfl⟩,
    zip_same_all _ (fun w => zip_same_all _ (fun x => isclose_refl x) w)]

theorem eqPy_refl (m : Motion) (htb : m.num_segments ≤ m.temporal_bins_s.length) :
    m.eqPy m = some true := by
  have hloop := eqLoop_eq_some_true_iff m.displacement m.displacement
    m.temporal_bins_s m.temporal_bins_s (List.range m.num_segments) ?side
  case side =>
    intro i hi
    rw [List.mem_range] at hi
    have hbd : m.num_segments = m.displacement.length := rfl
    refine ⟨by omega, by omega, ?_, ?_⟩
    · rw [allclose2_refl]; rfl
    · rw [allclose1_refl]; rfl
  have h1 : eqLoop m.displacement m.displacement m.temporal_bins_s
      m.temporal_bins_s (List.range m.num_segments) = some true :=
    hloop.mpr fun i _ => ⟨allclose2_refl _, allclose1_refl _⟩
  rw [Motion.eqPy, h1, allclose1_refl]

/-- C3.  Round trip: for a well-formed motion (direction accepted by the
constructor, constructor shape assertions satisfied, one temporal-bins
array per segment), `Motion.load (Motion.save m)` succeeds and
reconstructs `m` exactly, hence a Motion equal to `m` under the
tolerance-based `__eq__`.  (The model's `save` already requires the
target folder to be fresh, as `folder.mkdir(exist_ok=False)` does.) -/
theorem save_load_roundtrip (m : Motion)
    (hdir : m.direction ∈ ["x", "y", "z"])
    (hck : m.check_properties = true)
    (htb : m.temporal_bins_s.length = m.num_segments) :
    Motion.load (Motion.save m) = .ok m ∧ m.eqPy m = some true := by
  constructor
  · have hd : readFiles (Motion.save m).displacement_seg 0 m.num_segments
        = .ok m.displacement := by
      apply readFiles_spec _ _ _ _ rfl
      intro j hj
      simp only [Motion.save]
      rw [if_pos (by simpa [Motion.num_segments] using hj)]
      simp
    have ht : readFiles (Motion.save m).temporal_bins_s_seg 0 m.num_segments
        = .ok m.temporal_bins_s := by
      apply readFiles_spec _ _ _ _ htb
      intro j hj
      simp only [Motion.save]
      rw [if_pos (by simpa [Motion.num_segments] using hj)]
      simp
    rw [Motion.load, if_neg (by simp [Motion.save])]
    simp only [Motion.save] at hd ht ⊢
    rw [hd, ht]
    show makeMotion m.displacement m.temporal_bins_s m.spatial_bins_um
        m.direction m.interpolation_method = Except.ok m
    unfold makeMotion
    rw [if_pos (by simpa using hdir),
      if_pos (show Motion.check_properties ⟨m.displacement, m.temporal_bins_s,
        m.spatial_bins_um, m.direction, m.interpolation_method⟩ = true from hck)]
  · exact eqPy_refl m (by omega)

/-- Witness for C3 at a concrete two-segment motion. -/
theorem save_load_roundtrip_witness :
    Motion.load (Motion.save ⟨[[[1, 2]], [[3, 4], [5, 6]]], [[0], [0, 1]],
        [0, 10], "y", "linear"⟩)
      = .ok ⟨[[[1, 2]], [[3, 4], [5, 6]]], [[0], [0, 1]], [0, 10], "y", "linear"⟩ ∧
    Motion.eqPy ⟨[[[1, 2]], [[3, 4], [5, 6]]], [[0], [0, 1]], [0, 10], "y", "linear"⟩
        ⟨[[[1, 2]], [[3, 4], [5, 6]]], [[0], [0, 1]], [0, 10], "y", "linear"⟩
      = some true :=
  save_load_roundtrip
    ⟨[[[1, 2]], [[3, 4], [5, 6]]], [[0], [0, 1]], [0, 10], "y", "linear"⟩
    (by decide) (by decide) rfl

/-- A tiny heap of numpy arrays, used to express the aliasing content of
`Motion.copy`: 2-D and 1-D float arrays addressed by references. -/
structure Heap where
  arr2 : ℕ → List (List ℚ)
  arr1 : ℕ → List ℚ

/-- A Motion whose arrays live in a `Heap`: `displacement` and
`temporal_bins_s` are Python lists of references to per-segment arrays,
`spatial_bins_um` is a reference to a single array. -/
structure MotionRef where
  displacement : List ℕ
  temporal_bins_s : List ℕ
  spatial_bins_um : ℕ
  direction : String
  interpolation_method : String

/-- In-place write through a 2-D array reference
(`m.displacement[i][...] = ...`). -/
def Heap.write2 (h : Heap) (r : ℕ) (v : List (List ℚ)) : Heap :=
  { h with arr2 := fun s => if s = r then v else h.arr2 s }

/-- In-place write through a 1-D array reference. -/
def Heap.write1 (h : Heap) (r : ℕ) (v : List ℚ) : Heap :=
  { h with arr1 := fun s => if s = r then v else h.arr1 s }

/-- The displacement data a `MotionRef` sees in a heap. -/
def MotionRef.dispData (m : MotionRef) (h : Heap) : List (List (List ℚ)) :=
  m.displacement.map h.arr2

/-- The temporal-bins data a `MotionRef` sees in a heap. -/
def MotionRef.tempData (m : MotionRef) (h : Heap) : List (List ℚ) :=
  m.temporal_bins_s.map h.arr1

/-- The spatial-bins data a `MotionRef` sees in a heap. -/
def MotionRef.spatialData (m : MotionRef) (h : Heap) : List ℚ :=
  h.arr1 m.spatial_bins_um

/-- `Motion.copy()`: `self.displacement.copy()` and
`self.temporal_bins_s.copy()` are Python `list.copy()` calls — shallow
copies, so the new lists hold the same per-segment array references;
`self.spatial_bins_um.copy()` is `ndarray.copy()`, allocating a fresh
array (`fresh`) holding the same data; `direction` is not forwarded, so
the constructed Motion gets the constructor default; the interpolation
method is forwarded. -/
def MotionRef.copy (m : MotionRef) (h : Heap) (fresh : ℕ) : MotionRef × Heap :=
  (⟨m.displacement, m.temporal_bins_s, fresh, default_direction,
    m.interpolation_method⟩,
   h.write1 fresh (h.arr1 m.spatial_bins_um))

/-- Counterexample to C4 as stated: the displacement array data of a copy
is shared with the original, not copied.  For a concrete one-segment
motion, an in-place write through the original's displacement array
reference changes the data the copy sees (from `[[1]]` to `[[42]]`). -/
theorem copy_shares_segment_arrays_counterexample :
    MotionRef.dispData
        (MotionRef.copy ⟨[0], [1], 2, "y", "linear"⟩
          ⟨fun r => if r = 0 then [[1]] else [],
           fun r => if r = 1 then [0] else if r = 2 then [5] else []⟩ 3).1
        ((MotionRef.copy ⟨[0], [1], 2, "y", "linear"⟩
          ⟨fun r => if r = 0 then [[1]] else [],
           fun r => if r = 1 then [0] else if r = 2 then [5] else []⟩ 3).2.write2
          0 [[42]])
      = [[[42]]] ∧
    MotionRef.dispData
        (MotionRef.copy ⟨[0], [1], 2, "y", "linear"⟩
          ⟨fun r => if r = 0 then [[1]] else [],
           fun r => if r = 1 then [0] else if r = 2 then [5] else []⟩ 3).1
        (MotionRef.copy ⟨[0], [1], 2, "y", "linear"⟩
          ⟨fun r => if r = 0 then [[1]] else [],
           fun r => if r = 1 then [0] else if r = 2 then [5] else []⟩ 3).2
      = [[[1]]] ∧
    ([[[42]]] : List (List (List ℚ))) ≠ [[[1]]] := by
  refine ⟨rfl, rfl, by decide⟩

/-- C4 amended.  `copy()` produces a Motion whose top-level segment lists
are fresh but whose per-segment displacement and temporal-bins arrays are
shared with the original; only the spatial-bins array is independently
copied (writes through the original's spatial-bins array do not affect
the copy); the interpolation method is preserved and `direction` reverts
to the constructor default. -/
theorem copy_spec (m : MotionRef) (h : Heap) (fresh : ℕ)
    (hfresh : fresh ≠ m.spatial_bins_um) :
    (m.copy h fresh).1.displacement = m.displacement ∧
    (m.copy h fresh).1.temporal_bins_s = m.temporal_bins_s ∧
    (m.copy h fresh).1.spatial_bins_um = fresh ∧
    (m.copy h fresh).1.direction = default_direction ∧
    (m.copy h fresh).1.interpolation_method = m.interpolation_method ∧
    (m.copy h fresh).1.spatialData (m.copy h fresh).2 = m.spatialData h ∧
    (∀ v, (m.copy h fresh).1.spatialData
        (((m.copy h fresh).2).write1 m.spatial_bins_um v) = m.spatialData h) := by
  refine ⟨rfl, rfl, rfl, rfl, rfl, ?_, ?_⟩
  · simp [MotionRef.copy, Heap.write1, MotionRef.spatialData]
  · intro v
    simp [MotionRef.copy, Heap.write1, MotionRef.spatialData, hfresh]

/-- Witness for the amended C4 at the concrete heap of the
counterexample. -/
theorem copy_spec_witness :
    (MotionRef.copy ⟨[0], [1], 2, "y", "linear"⟩
        ⟨fun r => if r = 0 then [[1]] else [],
         fun r => if r = 1 then [0] else if r = 2 then [5] else []⟩ 3).1.displacement
      = [0] ∧
    (MotionRef.copy ⟨[0], [1], 2, "y", "linear"⟩
        ⟨fun r => if r = 0 then [[1]] else [],
         fun r => if r = 1 then [0] else if r = 2 then [5] else []⟩ 3).1.temporal_bins_s
      = [1] ∧
    (MotionRef.copy ⟨[0], [1], 2, "y", "linear"⟩
        ⟨fun r => if r = 0 then [[1]] else [],
         fun r => if r = 1 then [0] else if r = 2 then [5] else []⟩ 3).1.spatial_bins_um
      = 3 ∧
    (MotionRef.copy ⟨[0], [1], 2, "y", "linear"⟩
        ⟨fun r => if r = 0 then [[1]] else [],
         fun r => if r = 1 then [0] else if r = 2 then [5] else []⟩ 3).1.direction
      = default_direction ∧
    (MotionRef.copy ⟨[0], [1], 2, "y", "linear"⟩
        ⟨fun r => if r = 0 then [[1]] else [],
         fun r => if r = 1 then [0] else if r = 2 then [5] else []⟩ 3).1.interpolation_method
      = "linear" ∧
    (MotionRef.copy ⟨[0], [1], 2, "y", "linear"⟩
        ⟨fun r => if r = 0 then [[1]] else [],
         fun r => if r = 1 then [0] else if r = 2 then [5] else []⟩ 3).1.spatialData
        (MotionRef.copy ⟨[0], [1], 2, "y", "linear"⟩
          ⟨fun r => if r = 0 then [[1]] else [],
           fun r => if r = 1 then [0] else if r = 2 then [5] else []⟩ 3).2
      = MotionRef.spatialData ⟨[0], [1], 2, "y", "linear"⟩
          ⟨fun r => if r = 0 then [[1]] else [],
           fun r => if r = 1 then [0] else if r = 2 then [5] else []⟩ ∧
    (∀ v, (MotionRef.copy ⟨[0], [1], 2, "y", "linear"⟩
        ⟨fun r => if r = 0 then [[1]] else [],
         fun r => if r = 1 then [0] else if r = 2 then [5] else []⟩ 3).1.spatialData
        (((MotionRef.copy ⟨[0], [1], 2, "y", "linear"⟩
          ⟨fun r => if r = 0 then [[1]] else [],
           fun r => if r = 1 then [0] else if r = 2 then [5] else []⟩ 3).2).write1 2 v)
      = MotionRef.spatialData ⟨[0], [1], 2, "y", "linear"⟩
          ⟨fun r => if r = 0 then [[1]] else [],
           fun r => if r = 1 then [0] else if r = 2 then [5] else []⟩) :=
  copy_spec ⟨[0], [1], 2, "y", "linear"⟩
    ⟨fun r => if r = 0 then [[1]] else [],
     fun r => if r = 1 then [0] else if r = 2 then [5] else []⟩ 3 (by decide)

/-- `np.min` over the entries of a real 1-D array (0 on the empty list,
where numpy raises). -/
noncomputable def npMinR (xs : List ℝ) : ℝ :=
  match xs with
  | [] => 0
  | x :: rest => rest.foldl min x

/-- `np.max` over the entries of a real 1-D array (0 on the empty list,
where numpy raises). -/
noncomputable def npMaxR (xs : List ℝ) : ℝ :=
  match xs with
  | [] => 0
  | x :: rest => rest.foldl max x

/-- Python float `%`: `x % s = x - s·⌊x/s⌋` (exact for `s ≠ 0`). -/
noncomputable def pyMod (x s : ℝ) : ℝ := x - s * ⌊x / s⌋

/-- `get_windows(rigid, contact_pos, spatial_bin_edges, margin_um,
win_step_um, win_sigma_um, win_shape, zero_threshold)`.  `contact_pos`
is the flattened list of entries of the contact-position array (`np.min`
and `np.max` run over all entries).  The carrier is `ℝ` because the
gaussian branch uses `np.exp`.  The non-fatal overlap warning is not
modelled (it changes no output); an unknown `win_shape` is a `NameError`
in the source and is modelled as an empty window, and no theorem below
touches that branch. -/
noncomputable def get_windows (rigid : Bool) (contact_pos spatial_bin_edges : List ℝ)
    (margin_um win_step_um win_sigma_um : ℝ) (win_shape : String)
    (zero_threshold : Option ℝ) : List (List ℝ) × List ℝ :=
  let bin_centers := ((spatial_bin_edges.drop 1).zip spatial_bin_edges.dropLast).map
    fun p => (p.1 + p.2) / 2
  let n := bin_centers.length
  let wc : List (List ℝ) × List ℝ :=
    if rigid then
      ([List.replicate n (1 : ℝ)],
       [(spatial_bin_edges.headD 0 + spatial_bin_edges.getLastD 0) / 2])
    else
      let min_ := npMinR contact_pos - margin_um
      let max_ := npMaxR contact_pos + margin_um
      let num_windows : ℤ := ⌊(max_ - min_) / win_step_um⌋
      let border := pyMod (max_ - min_) win_step_um / 2
      let window_centers := (List.range (num_windows + 1).toNat).map
        fun i : ℕ => (i : ℝ) * win_step_um + min_ + border
      let windows := window_centers.map fun c =>
        if win_shape = "gaussian" then
          bin_centers.map fun x =>
            Real.exp (-((x - c) ^ 2) / (2 * win_sigma_um ^ 2))
        else if win_shape = "rect" then
          bin_centers.map fun x =>
            if |x - c| < win_sigma_um / 2 then (1 : ℝ) else 0
        else if win_shape = "triangle" then
          let ds := (bin_centers.filter fun x =>
            decide (|x - c| ≤ win_sigma_um / 2)).map fun x => |x - c|
          bin_centers.map fun x =>
            if |x - c| ≤ win_sigma_um / 2 then
              (npMaxR ds - |x - c|) / (npMaxR ds - npMinR ds)
            else 0
        else []
      (windows, window_centers)
  match zero_threshold with
  | none => wc
  | some zt =>
    (wc.1.map fun w =>
      (w.map fun x => if x < zt then (0 : ℝ) else x).map fun x =>
        x / (w.map fun x => if x < zt then (0 : ℝ) else x).sum,
     wc.2)

/-- C7 amended.  With the default `zero_threshold=None`, a rigid call
returns exactly one window of `n` ones (`n` the number of spatial bin
centers, one less than the number of bin edges) and one window center at
the midpoint of the first and last spatial bin edges. -/
theorem get_windows_rigid (contact_pos spatial_bin_edges : List ℝ)
    (margin_um win_step_um win_sigma_um : ℝ) (win_shape : String)
    (hne : spatial_bin_edges ≠ []) :
    get_windows true contact_pos spatial_bin_edges margin_um win_step_um
        win_sigma_um win_shape none
      = ([List.replicate (spatial_bin_edges.length - 1) 1],
         [(spatial_bin_edges.headD 0 + spatial_bin_edges.getLastD 0) / 2]) := by
  simp [get_windows, List.length_zip, List.length_dropLast]

/-- Witness for the amended C7: three bin edges give one window of two
ones centered at the edge midpoint. -/
theorem get_windows_rigid_witness :
    get_windows true [] [0, 1, 2] 0 1 1 "rect" none
      = ([List.replicate 2 1], [(((0 : ℝ)) + 2) / 2]) :=
  get_windows_rigid [] [0, 1, 2] 0 1 1 "rect" (by simp)

/-- Counterexample to C7 as stated: the claim quantifies over every
rigid call, but with a `zero_threshold` the single all-ones window is
renormalized to sum 1, so its entries are `1/n`, not 1. -/
theorem get_windows_rigid_threshold_counterexample :
    (get_windows true [] [0, 1, 2] 0 1 1 "rect" (some (1 / 2))).1
      = [[1 / 2, 1 / 2]] ∧
    (get_windows true [] [0, 1, 2] 0 1 1 "rect" (some (1 / 2))).1
      ≠ [List.replicate 2 (1 : ℝ)] := by
  constructor
  · norm_num [get_windows, List.replicate]
  · norm_num [get_windows, List.replicate]

theorem getD_map_range (n i : ℕ) (f : ℕ → ℝ) (h : i < n) :
    ((List.range n).map f).getD i 0 = f i := by
  rw [List.getD_eq_getElem _ _ (by simpa using h)]
  simp

theorem get_windows_counts (rigid : Bool) (contact_pos spatial_bin_edges : List ℝ)
    (margin_um win_step_um win_sigma_um : ℝ) (win_shape : String)
    (zero_threshold : Option ℝ) :
    (get_windows rigid contact_pos spatial_bin_edges margin_um win_step_um
        win_sigma_um win_shape zero_threshold).1.length
      = (get_windows rigid contact_pos spatial_bin_edges margin_um win_step_um
        win_sigma_um win_shape zero_threshold).2.length := by
  rcases zero_threshold with _ | zt <;> rcases rigid <;> simp [get_windows]

/-- C8.  Non-rigid calls with positive step and nonnegative span
`span = (max contact + margin) - (min contact - margin)` produce
`⌊span/step⌋ + 1` windows: the window centers are exactly
`min contact - margin + (span % step)/2 + k·step` for
`k = 0, …, ⌊span/step⌋` — evenly spaced by `step`, starting at the lower
end plus half the remainder — and they sit symmetrically: the first
center is as far above the lower end of the covered span as the last
center is below its upper end. -/
theorem get_windows_nonrigid_centers (contact_pos spatial_bin_edges : List ℝ)
    (margin_um win_step_um win_sigma_um : ℝ) (win_shape : String)
    (zero_threshold : Option ℝ)
    (hcp : contact_pos ≠ []) (hstep : 0 < win_step_um)
    (hspan : 0 ≤ npMaxR contact_pos + margin_um
      - (npMinR contact_pos - margin_um)) :
    ((get_windows false contact_pos spatial_bin_edges margin_um win_step_um
        win_sigma_um win_shape zero_threshold).2
      = (List.range (⌊(npMaxR contact_pos + margin_um
            - (npMinR contact_pos - margin_um)) / win_step_um⌋ + 1).toNat).map
          fun k : ℕ => npMinR contact_pos - margin_um
            + pyMod (npMaxR contact_pos + margin_um
              - (npMinR contact_pos - margin_um)) win_step_um / 2
            + (k : ℝ) * win_step_um) ∧
    ((get_windows false contact_pos spatial_bin_edges margin_um win_step_um
        win_sigma_um win_shape zero_threshold).2.length
      = (⌊(npMaxR contact_pos + margin_um
          - (npMinR contact_pos - margin_um)) / win_step_um⌋).toNat + 1) ∧
    ((get_windows false contact_pos spatial_bin_edges margin_um win_step_um
        win_sigma_um win_shape zero_threshold).1.length
      = (get_windows false contact_pos spatial_bin_edges margin_um win_step_um
        win_sigma_um win_shape zero_threshold).2.length) ∧
    ((get_windows false contact_pos spatial_bin_edges margin_um win_step_um
          win_sigma_um win_shape zero_threshold).2.getD 0 0
        - (npMinR contact_pos - margin_um)
      = (npMaxR contact_pos + margin_um)
        - (get_windows false contact_pos spatial_bin_edges margin_um win_step_um
          win_sigma_um win_shape zero_threshold).2.getD
          ((get_windows false contact_pos spatial_bin_edges margin_um win_step_um
            win_sigma_um win_shape zero_threshold).2.length - 1) 0) := by
  have hfloor : 0 ≤ ⌊(npMaxR contact_pos + margin_um
      - (npMinR contact_pos - margin_um)) / win_step_um⌋ :=
    Int.floor_nonneg.mpr (div_nonneg hspan hstep.le)
  have hcenters : (get_windows false contact_pos spatial_bin_edges margin_um
      win_step_um win_sigma_um win_shape zero_threshold).2
      = (List.range (⌊(npMaxR contact_pos + margin_um
            - (npMinR contact_pos - margin_um)) / win_step_um⌋ + 1).toNat).map
          fun k : ℕ => npMinR contact_pos - margin_um
            + pyMod (npMaxR contact_pos + margin_um
              - (npMinR contact_pos - margin_um)) win_step_um / 2
            + (k : ℝ) * win_step_um := by
    cases zero_threshold <;>
      · simp only [get_windows]
        simp only [Bool.false_eq_true, if_false]
        apply List.map_congr_left
        intro k _
        ring
  have htoNat : (⌊(npMaxR contact_pos + margin_um
      - (npMinR contact_pos - margin_um)) / win_step_um⌋ + 1).toNat
      = (⌊(npMaxR contact_pos + margin_um
        - (npMinR contact_pos - margin_um)) / win_step_um⌋).toNat + 1 := by
    generalize ⌊(npMaxR contact_pos + margin_um
      - (npMinR contact_pos - margin_um)) / win_step_um⌋ = q at hfloor ⊢
    omega
  have hlen : (get_windows false contact_pos spatial_bin_edges margin_um
      win_step_um win_sigma_um win_shape zero_threshold).2.length
      = (⌊(npMaxR contact_pos + margin_um
        - (npMinR contact_pos - margin_um)) / win_step_um⌋).toNat + 1 := by
    rw [hcenters]
    simp only [List.length_map, List.length_range]
    exact htoNat
  refine ⟨hcenters, hlen, get_windows_counts false contact_pos spatial_bin_edges
    margin_um win_step_um win_sigma_um win_shape zero_threshold, ?_⟩
  rw [hlen, hcenters]
  simp only [Nat.add_sub_cancel]
  rw [getD_map_range _ _ _ (by omega), getD_map_range _ _ _ (by omega)]
  have hcast : ((⌊(npMaxR contact_pos + margin_um
      - (npMinR contact_pos - margin_um)) / win_step_um⌋.toNat : ℕ) : ℝ)
      = ((⌊(npMaxR contact_pos + margin_um
        - (npMinR contact_pos - margin_um)) / win_step_um⌋ : ℤ) : ℝ) := by
    rw_mod_cast [Int.toNat_of_nonneg hfloor]
  rw [hcast]
  simp only [pyMod]
  push_cast
  ring

/-- Witness for C8: contacts at 0 and 10, margin 0, step 4 — span 10,
three centers. -/
theorem get_windows_nonrigid_centers_witness :
    ((get_windows false [0, 10] [0, 5, 10] 0 4 1 "rect" none).2
      = (List.range (⌊(npMaxR [0, 10] + 0 - (npMinR [0, 10] - 0)) / 4⌋ + 1).toNat).map
          fun k : ℕ => npMinR [0, 10] - 0
            + pyMod (npMaxR [0, 10] + 0 - (npMinR [0, 10] - 0)) 4 / 2
            + (k : ℝ) * 4) ∧
    ((get_windows false [0, 10] [0, 5, 10] 0 4 1 "rect" none).2.length
      = (⌊(npMaxR [0, 10] + 0 - (npMinR [0, 10] - 0)) / 4⌋).toNat + 1) ∧
    ((get_windows false [0, 10] [0, 5, 10] 0 4 1 "rect" none).1.length
      = (get_windows false [0, 10] [0, 5, 10] 0 4 1 "rect" none).2.length) ∧
    ((get_windows false [0, 10] [0, 5, 10] 0 4 1 "rect" none).2.getD 0 0
        - (npMinR [0, 10] - 0)
      = (npMaxR [0, 10] + 0)
        - (get_windows false [0, 10] [0, 5, 10] 0 4 1 "rect" none).2.getD
          ((get_windows false [0, 10] [0, 5, 10] 0 4 1 "rect" none).2.length - 1) 0) :=
  get_windows_nonrigid_centers [0, 10] [0, 5, 10] 0 4 1 "rect" none
    (by simp) (by norm_num)
    (by norm_num [npMaxR, npMinR])

/-- `np.flatnonzero(w)`: the indices of the non-zero entries, in
ascending order. -/
def flatnonzero {α : Type} [Zero α] [DecidableEq α] (w : List α) : List ℕ :=
  (List.range w.length).filter fun i => decide (w.getD i 0 ≠ 0)

/-- The per-window computation of `get_window_domains`:
`slice(in_window[0], in_window[-1] + 1)`.  `none` models the
`IndexError` raised on a window with no non-zero entry. -/
def window_domain {α : Type} [Zero α] [DecidableEq α] (w : List α) :
    Option (ℕ × ℕ) :=
  match (flatnonzero w).head?, (flatnonzero w).getLast? with
  | some a, some b => some (a, b + 1)
  | _, _ => none

/-- `get_window_domains(windows)`: one slice per window. -/
def get_window_domains {α : Type} [Zero α] [DecidableEq α]
    (windows : List (List α)) : Option (List (ℕ × ℕ)) :=
  windows.mapM window_domain

theorem mem_flatnonzero {α : Type} [Zero α] [DecidableEq α] {w : List α} {i : ℕ} :
    i ∈ flatnonzero w ↔ i < w.length ∧ w.getD i 0 ≠ 0 := by
  simp [flatnonzero, List.mem_filter, List.mem_range]

theorem flatnonzero_pairwise {α : Type} [Zero α] [DecidableEq α] (w : List α) :
    (flatnonzero w).Pairwise (· < ·) :=
  (List.pairwise_lt_range _).filter _

theorem head?_le_of_pairwise {l : List ℕ} {h x : ℕ} (hp : l.Pairwise (· < ·))
    (hhead : l.head? = some h) (hx : x ∈ l) : h ≤ x := by
  cases l with
  | nil => cases hhead
  | cons y t =>
    have hy : y = h := by
      simpa using hhead
    subst hy
    rcases List.mem_cons.mp hx with h1 | h1
    · omega
    · exact ((List.pairwise_cons.mp hp).1 x h1).le

theorem mem_of_getLast?_eq {α : Type} {l : List α} {x : α}
    (hl : l.getLast? = some x) : x ∈ l := by
  induction l with
  | nil => cases hl
  | cons y t ih =>
    cases t with
    | nil =>
      have : y = x := by simpa using hl
      subst this
      simp
    | cons z t2 =>
      rw [List.getLast?_cons_cons] at hl
      exact List.mem_cons.mpr (Or.inr (ih hl))

theorem le_getLast?_of_pairwise {l : List ℕ} {L x : ℕ} (hp : l.Pairwise (· < ·))
    (hlast : l.getLast? = some L) (hx : x ∈ l) : x ≤ L := by
  induction l with
  | nil => cases hx
  | cons y t ih =>
    cases t with
    | nil =>
      have h1 : y = L := by simpa using hlast
      have h2 : x = y := by simpa using hx
      omega
    | cons z t2 =>
      rw [List.getLast?_cons_cons] at hlast
      rcases List.mem_cons.mp hx with h1 | h1
      · subst h1
        have hLmem : L ∈ z :: t2 := mem_of_getLast?_eq hlast
        exact ((List.pairwise_cons.mp hp).1 L hLmem).le
      · exact ih (List.pairwise_cons.mp hp).2 hlast h1

/-- C9.  For a window whose first non-zero entry is at index `a` and
whose last non-zero entry is at index `b`, the domain extractor returns
exactly the half-open slice `(a, b + 1)`; an all-zero window is a fatal
index error (`none`); and `get_window_domains` applies this slice
computation to each window. -/
theorem window_domain_first_last (w : List ℚ) (a b : ℕ)
    (ha : a < w.length) (hwa : w.getD a 0 ≠ 0)
    (hfirst : ∀ i < a, w.getD i 0 = 0)
    (hwb : w.getD b 0 ≠ 0)
    (hlast : ∀ i, b < i → w.getD i 0 = 0) :
    window_domain w = some (a, b + 1) ∧
    (∀ w2 : List ℚ, (∀ i, w2.getD i 0 = 0) → window_domain w2 = none) ∧
    get_window_domains [w] = some [(a, b + 1)] := by
  have hb : b < w.length := by
    by_contra hcon
    exact hwb (List.getD_eq_default _ _ (by omega))
  have hamem : a ∈ flatnonzero w := mem_flatnonzero.mpr ⟨ha, hwa⟩
  have hbmem : b ∈ flatnonzero w := mem_flatnonzero.mpr ⟨hb, hwb⟩
  have hmain : window_domain w = some (a, b + 1) := by
    rcases hnz : flatnonzero w with _ | ⟨h0, t⟩
    · rw [hnz] at hamem; cases hamem
    · have hhead : (flatnonzero w).head? = some h0 := by rw [hnz]; rfl
      have hLex : ∃ L, (flatnonzero w).getLast? = some L := by
        rw [hnz]
        exact ⟨(h0 :: t).getLast (by simp), List.getLast?_eq_getLast _ _⟩
      obtain ⟨L, hL⟩ := hLex
      have hha : h0 = a := by
        have h1 : h0 ≤ a := head?_le_of_pairwise (flatnonzero_pairwise w) hhead hamem
        have h2 : h0 ∈ flatnonzero w := by rw [hnz]; simp
        obtain ⟨hlt, hne⟩ := mem_flatnonzero.mp h2
        by_contra hcon
        exact hne (hfirst h0 (by omega))
      have hLb : L = b := by
        have h1 : b ≤ L :=
          le_getLast?_of_pairwise (flatnonzero_pairwise w) hL hbmem
        have h2 : L ∈ flatnonzero w := mem_of_getLast?_eq hL
        obtain ⟨hlt, hne⟩ := mem_flatnonzero.mp h2
        by_contra hcon
        exact hne (hlast L (by omega))
      rw [window_domain, hhead, hL, hha, hLb]
  refine ⟨hmain, ?_, ?_⟩
  · intro w2 hzero
    have hfz : flatnonzero w2 = [] := by
      rw [flatnonzero, List.filter_eq_nil]
      intro i _
      simp only [decide_eq_true_eq, not_not]
      exact hzero i
    rw [window_domain, hfz]
    rfl
  · rw [get_window_domains]
    simp [List.mapM.loop, hmain]

/-- Witness for C9: the window `[0, 3, 0, 5, 0]` has its non-zero
entries in indices 1..3, so the returned slice is `(1, 4)`; the all-zero
part is applied to `[0, 0]`. -/
theorem window_domain_first_last_witness :
    window_domain ([0, 3, 0, 5, 0] : List ℚ) = some (1, 4) ∧
    (∀ w2 : List ℚ, (∀ i, w2.getD i 0 = 0) → window_domain w2 = none) ∧
    get_window_domains [([0, 3, 0, 5, 0] : List ℚ)] = some [(1, 4)] :=
  window_domain_first_last [0, 3, 0, 5, 0] 1 3 (by norm_num)
    (by norm_num) (by
      intro i hi
      interval_cases i
      · norm_num)
    (by norm_num)
    (by
      intro i hi
      match i, hi with
      | 4, _ => norm_num
      | n + 5, _ =>
        rw [List.getD_eq_default _ _ (by simp)])

/-- Integer-indexed read of a 1-D array, zero outside the bounds. -/
def atZ (x : List ℚ) (i : ℤ) : ℚ :=
  if 0 ≤ i ∧ i < x.length then x.getD i.toNat 0 else 0

/-- Full cross-correlation (`scipy.signal.correlate(x, w, "full")`):
`z[i] = Σ_j x[i + j - (k - 1)] · w[j]` for `i = 0, …, l + k - 2`. -/
def correlate_full (x w : List ℚ) : List ℚ :=
  (List.range (x.length + w.length - 1)).map fun i : ℕ =>
    ((List.range w.length).map fun j : ℕ =>
      atZ x ((i : ℤ) + (j : ℤ) - ((w.length : ℤ) - 1)) * w.getD j 0).sum

/-- `scipy.signal.correlate(x, w, mode)` for the modes this module uses,
modelled from the documented output sizes: "valid" keeps the
`max(l,k) - min(l,k) + 1` central entries of the full output (starting
at `min(l,k) - 1`), "same" keeps `l` entries centered in the full output
(starting at `(k - 1) / 2`); any other mode string is never passed by
`scipy_conv1d`, which only builds "same" and "valid". -/
def correlate (x w : List ℚ) (mode : String) : List ℚ :=
  if mode = "valid" then
    ((correlate_full x w).drop (min x.length w.length - 1)).take
      (max x.length w.length - min x.length w.length + 1)
  else if mode = "same" then
    ((correlate_full x w).drop ((w.length - 1) / 2)).take x.length
  else correlate_full x w

/-- The Python `padding` argument of `scipy_conv1d`: a string or an
integer (`isinstance(padding, int)`). -/
inductive PaddingArg where
  | str (s : String)
  | int (i : ℤ)
deriving DecidableEq

/-- The correlation loop of `scipy_conv1d`:
`output[m, c] = correlate(input[m, 0], weights[c, 0], mode)`. -/
def conv_rows (input weights : List (List (List ℚ))) (mode : String) :
    List (List (List ℚ)) :=
  input.map fun blk => weights.map fun wblk =>
    correlate (blk.getD 0 []) (wblk.getD 0 []) mode

/-- The tail of `scipy_conv1d` after the padding argument is resolved
into a (possibly padded) input, a correlate mode and `length_out`:
allocate `np.zeros((n, c_out, length_out))` (raising on a negative
length) and run the assignment loop (raising a broadcast error when a
correlate row does not have length `length_out`). -/
def finishConv (weights : List (List (List ℚ)))
    (resolved : Except String (List (List (List ℚ)) × String × ℤ)) :
    Except String (List (List (List ℚ))) :=
  match resolved with
  | .error e => .error e
  | .ok (pin, mode, length_out) =>
    if length_out < 0 then .error "negative dimensions are not allowed"
    else
      if (conv_rows pin weights mode).all fun blk => blk.all fun row =>
          decide (row.length = length_out.toNat) then
        .ok (conv_rows pin weights mode)
      else .error "could not broadcast input array"

/-- `scipy_conv1d(input, weights, padding)` for `input` of shape
`(n, 1, length)` and `weights` of shape `(c_out, 1, kernel_size)`.
`Except` models the raised errors: the `in_by_groups == c_in == 1`
assert, the unknown-padding `ValueError` (naming the bad value),
`np.pad` with a negative pad, `np.zeros` with a negative length, and the
broadcast error raised by `output[m, c] = correlate(...)` when the
correlate result does not have length `length_out`. -/
def scipy_conv1d (input weights : List (List (List ℚ)))
    (padding : PaddingArg) : Except String (List (List (List ℚ))) :=
  let c_in := (input.getD 0 []).length
  let length := ((input.getD 0 []).getD 0 []).length
  let in_by_groups := (weights.getD 0 []).length
  let kernel_size := ((weights.getD 0 []).getD 0 []).length
  if in_by_groups = 1 ∧ c_in = 1 then
    finishConv weights
      (match padding with
      | .str s =>
        if s = "same" then .ok (input, "same", (length : ℤ))
        else if s = "valid" then
          .ok (input, "valid", (length : ℤ) - 2 * ((kernel_size / 2 : ℕ) : ℤ))
        else .error ("Unknown padding value of " ++ s ++
          ", padding must be same, valid or an integer")
      | .int p =>
        if p < 0 then .error "index can not contain negative values"
        else
          .ok (input.map fun blk => blk.map fun row =>
              List.replicate p.toNat 0 ++ row ++ List.replicate p.toNat 0,
            "valid", (length : ℤ) - ((kernel_size : ℤ) - 1) + 2 * p))
  else .error "assert in_by_groups == c_in == 1"

theorem correlate_full_length (x w : List ℚ) :
    (correlate_full x w).length = x.length + w.length - 1 := by
  simp [correlate_full]

theorem correlate_valid_length (x w : List ℚ) (hx : 1 ≤ x.length)
    (hw : 1 ≤ w.length) :
    (correlate x w "valid").length
      = max x.length w.length - min x.length w.length + 1 := by
  rw [correlate, if_pos rfl, List.length_take, List.length_drop,
    correlate_full_length]
  omega

theorem correlate_same_length (x w : List ℚ) (hw : 1 ≤ w.length) :
    (correlate x w "same").length = x.length := by
  rw [correlate, if_neg (by decide), if_pos rfl, List.length_take,
    List.length_drop, correlate_full_length]
  omega

theorem conv_rows_shape (pin weights : List (List (List ℚ))) (mode : String)
    (rowlen : ℕ)
    (hrow : ∀ blk ∈ pin, ∀ wblk ∈ weights,
      (correlate (blk.getD 0 []) (wblk.getD 0 []) mode).length = rowlen) :
    (conv_rows pin weights mode).length = pin.length ∧
    ∀ blk ∈ conv_rows pin weights mode, blk.length = weights.length ∧
      ∀ row ∈ blk, row.length = rowlen := by
  constructor
  · simp [conv_rows]
  · intro blk hblk
    rw [conv_rows] at hblk
    obtain ⟨src, hsrc, rfl⟩ := List.mem_map.mp hblk
    refine ⟨by simp, ?_⟩
    intro row hrow2
    obtain ⟨wsrc, hwsrc, rfl⟩ := List.mem_map.mp hrow2
    exact hrow src hsrc wsrc hwsrc

/-- Counterexample to C10 as stated: with `padding="valid"` and an even
kernel size the claimed output shape `length − 2·(kernel_size // 2)`
disagrees with the correlate output length `length − kernel_size + 1`,
so the row assignment raises a broadcast error instead of returning an
array of that shape: input `(1, 1, 3)`, kernel size 2. -/
theorem scipy_conv1d_even_valid_counterexample :
    scipy_conv1d [[[1, 2, 3]]] [[[1, 1]]] (.str "valid")
      = .error "could not broadcast input array" ∧
    ¬ ∃ out, scipy_conv1d [[[1, 2, 3]]] [[[1, 1]]] (.str "valid")
      = .ok out := by
  constructor
  · rfl
  · intro hex
    obtain ⟨out, hout⟩ := hex
    rw [show scipy_conv1d [[[1, 2, 3]]] [[[1, 1]]] (.str "valid")
      = .error "could not broadcast input array" from rfl] at hout
    cases hout

/-- C10 amended.  For input of shape `(n, 1, l)` and weights of shape
`(c, 1, k)` with `n, c, k ≥ 1`, `scipy_conv1d` returns an output of
shape `(n, c, l)` for `padding="same"`; of shape
`(n, c, l − 2·(k // 2))` for `padding="valid"` when `k` is odd and
`k ≤ l` (an even `k` makes the valid branch raise a broadcast error
instead, see the counterexample); of shape `(n, c, l − k + 1 + 2·p)` for
an explicit integer pad `p ≥ 0` with `k ≤ l + 2·p`; and any other
padding string raises a `ValueError` naming the bad value. -/
theorem scipy_conv1d_shapes (input weights : List (List (List ℚ))) (l k : ℕ)
    (hn : input ≠ []) (hc : weights ≠ [])
    (hin : ∀ blk ∈ input, blk.length = 1 ∧ ∀ row ∈ blk, row.length = l)
    (hw : ∀ blk ∈ weights, blk.length = 1 ∧ ∀ row ∈ blk, row.length = k)
    (hk : 1 ≤ k) :
    (∃ out, scipy_conv1d input weights (.str "same") = .ok out ∧
      out.length = input.length ∧
      ∀ blk ∈ out, blk.length = weights.length ∧
        ∀ row ∈ blk, row.length = l) ∧
    (k % 2 = 1 → k ≤ l →
      ∃ out, scipy_conv1d input weights (.str "valid") = .ok out ∧
        out.length = input.length ∧
        ∀ blk ∈ out, blk.length = weights.length ∧
          ∀ row ∈ blk, row.length = l - 2 * (k / 2)) ∧
    (∀ p : ℤ, 0 ≤ p → k ≤ l + 2 * p.toNat →
      ∃ out, scipy_conv1d input weights (.int p) = .ok out ∧
        out.length = input.length ∧
        ∀ blk ∈ out, blk.length = weights.length ∧
          ∀ row ∈ blk, row.length = l + 2 * p.toNat + 1 - k) ∧
    (∀ s, s ≠ "same" → s ≠ "valid" →
      scipy_conv1d input weights (.str s)
        = .error ("Unknown padding value of " ++ s ++
            ", padding must be same, valid or an integer")) := by
  have hmem0 : input.getD 0 [] ∈ input := by
    rcases input with _ | ⟨b, t⟩
    · exact absurd rfl hn
    · simp
  have hwmem0 : weights.getD 0 [] ∈ weights := by
    rcases weights with _ | ⟨b, t⟩
    · exact absurd rfl hc
    · simp
  have hfirstrow : ∀ blk ∈ input, (blk.getD 0 []).length = l := by
    intro blk hblk
    obtain ⟨h1, h2⟩ := hin blk hblk
    obtain ⟨r, rfl⟩ := List.length_eq_one.mp h1
    exact h2 r (by simp)
  have hwrow : ∀ wblk ∈ weights, (wblk.getD 0 []).length = k := by
    intro wblk hwblk
    obtain ⟨h1, h2⟩ := hw wblk hwblk
    obtain ⟨r, rfl⟩ := List.length_eq_one.mp h1
    exact h2 r (by simp)
  have hcin : (input.getD 0 []).length = 1 := (hin _ hmem0).1
  have hibg : (weights.getD 0 []).length = 1 := (hw _ hwmem0).1
  have hlenv : ((input.getD 0 []).getD 0 []).length = l := hfirstrow _ hmem0
  have hkv : ((weights.getD 0 []).getD 0 []).length = k := hwrow _ hwmem0
  refine ⟨?_, ?_, ?_, ?_⟩
  · -- padding = "same"
    obtain ⟨hlen, hshape⟩ := conv_rows_shape input weights "same" l
      (fun blk hblk wblk hwblk => by
        rw [correlate_same_length _ _ (by rw [hwrow wblk hwblk]; omega),
          hfirstrow blk hblk])
    have hall : ((conv_rows input weights "same").all fun blk =>
        blk.all fun row => decide (row.length = ((l : ℤ)).toNat)) = true := by
      rw [List.all_eq_true]
      intro blk hblk
      rw [List.all_eq_true]
      intro row hrow
      have := (hshape blk hblk).2 row hrow
      simp [this]
    refine ⟨conv_rows input weights "same", ?_, by rw [hlen], hshape⟩
    simp only [scipy_conv1d, hcin, hibg, hlenv, hkv, and_self, if_true, if_false]
    simp only [finishConv]
    rw [if_neg (show ¬((l : ℤ) < 0) by omega), if_pos hall]
  · -- padding = "valid", odd kernel
    intro hodd hkl
    obtain ⟨hlen, hshape⟩ := conv_rows_shape input weights "valid"
      (l - 2 * (k / 2))
      (fun blk hblk wblk hwblk => by
        rw [correlate_valid_length _ _ (by rw [hfirstrow blk hblk]; omega)
          (by rw [hwrow wblk hwblk]; omega), hfirstrow blk hblk,
          hwrow wblk hwblk]
        omega)
    have hall : ((conv_rows input weights "valid").all fun blk =>
        blk.all fun row =>
          decide (row.length
            = ((l : ℤ) - 2 * ((k / 2 : ℕ) : ℤ)).toNat)) = true := by
      rw [List.all_eq_true]
      intro blk hblk
      rw [List.all_eq_true]
      intro row hrow
      have := (hshape blk hblk).2 row hrow
      simp only [this, decide_eq_true_eq]
      omega
    refine ⟨conv_rows input weights "valid", ?_, by rw [hlen], hshape⟩
    simp only [scipy_conv1d, hcin, hibg, hlenv, hkv, and_self, if_true, if_false]
    rw [if_neg (show ¬(("valid" : String) = "same") by decide)]
    simp only [finishConv]
    rw [if_neg (show ¬((l : ℤ) - 2 * ((k / 2 : ℕ) : ℤ) < 0) by omega),
      if_pos hall]
  · -- integer padding
    intro p hp hkp
    have hpinrow : ∀ blk ∈ (input.map fun blk => blk.map fun row =>
        List.replicate p.toNat (0 : ℚ) ++ row ++ List.replicate p.toNat 0),
        (blk.getD 0 []).length = l + 2 * p.toNat := by
      intro blk hblk
      obtain ⟨src, hsrc, rfl⟩ := List.mem_map.mp hblk
      obtain ⟨h1, h2⟩ := hin src hsrc
      obtain ⟨r, rfl⟩ := List.length_eq_one.mp h1
      have hr : r.length = l := h2 r (by simp)
      simp [hr]
      omega
    obtain ⟨hlen, hshape⟩ := conv_rows_shape
      (input.map fun blk => blk.map fun row =>
        List.replicate p.toNat (0 : ℚ) ++ row ++ List.replicate p.toNat 0)
      weights "valid" (l + 2 * p.toNat + 1 - k)
      (fun blk hblk wblk hwblk => by
        rw [correlate_valid_length _ _ (by rw [hpinrow blk hblk]; omega)
          (by rw [hwrow wblk hwblk]; omega), hpinrow blk hblk,
          hwrow wblk hwblk]
        omega)
    have hall : ((conv_rows (input.map fun blk => blk.map fun row =>
        List.replicate p.toNat (0 : ℚ) ++ row ++ List.replicate p.toNat 0)
        weights "valid").all fun blk => blk.all fun row =>
          decide (row.length
            = ((l : ℤ) - ((k : ℤ) - 1) + 2 * p).toNat)) = true := by
      rw [List.all_eq_true]
      intro blk hblk
      rw [List.all_eq_true]
      intro row hrow
      have := (hshape blk hblk).2 row hrow
      simp only [this, decide_eq_true_eq]
      omega
    refine ⟨_, ?_, by rw [hlen]; simp, hshape⟩
    simp only [scipy_conv1d, hcin, hibg, hlenv, hkv, and_self, if_true, if_false]
    rw [if_neg (show ¬(p < 0) by omega)]
    simp only [finishConv]
    rw [if_neg (show ¬((l : ℤ) - ((k : ℤ) - 1) + 2 * p < 0) by omega),
      if_pos hall]
  · -- unknown string padding
    intro s hs1 hs2
    simp only [scipy_conv1d, hcin, hibg, hlenv, hkv, and_self, if_true, if_false]
    rw [if_neg hs1, if_neg hs2]
    simp only [finishConv]

/-- Witness for the amended C10 at concrete shapes: `"same"` on a
`(1, 1, 3)` input with kernel size 2, and an unknown padding string. -/
theorem scipy_conv1d_shapes_witness :
    (∃ out, scipy_conv1d [[[1, 2, 3]]] [[[1, 1]]] (.str "same") = .ok out ∧
      out.length = 1 ∧
      ∀ blk ∈ out, blk.length = 1 ∧ ∀ row ∈ blk, row.length = 3) ∧
    scipy_conv1d [[[1, 2, 3]]] [[[1, 1]]] (.str "zzz")
      = .error ("Unknown padding value of " ++ "zzz" ++
          ", padding must be same, valid or an integer") :=
  ⟨(scipy_conv1d_shapes [[[1, 2, 3]]] [[[1, 1]]] 3 2 (by simp) (by simp)
      (by simp) (by simp) (by omega)).1,
   (scipy_conv1d_shapes [[[1, 2, 3]]] [[[1, 1]]] 3 2 (by simp) (by simp)
      (by simp) (by simp) (by omega)).2.2.2 "zzz" (by decide) (by decide)⟩

end SpikeMotion



